import Mathlib

/-!
Verification of the JUCE BinaryBuilder command-line tool
(`extras/binarybuilder/Source/Main.cpp`).

The tool scans a source directory, filters out hidden files, and encodes the
remaining files as byte-array literals in a generated `.h`/`.cpp` pair.  The
definitions below are a shallow embedding of that program: JUCE `String`
operations become functions on `List Char`, a discovered filesystem entry
becomes an explicit record carrying its name, reported size, directory flag
and chain of ancestor directories, the output streams become token lists, and
`main` becomes a pure function from an abstract command-line world to the
observable result (exit code, console messages, destination-file effects,
emitted tokens).
-/

namespace BinaryBuilder

/-! ### JUCE String operations (on `List Char`) -/

/-- Model of `String::toLowerCase`. -/
def toLowerCase (s : List Char) : List Char := s.map Char.toLower

/-- Model of `String::toUpperCase`. -/
def toUpperCase (s : List Char) : List Char := s.map Char.toUpper

/-- Model of `String::replaceCharacter a b`: every occurrence of `a` becomes `b`. -/
def replaceCharacter (s : List Char) (a b : Char) : List Char :=
  s.map (fun c => if c = a then b else c)

/-- Model of `String::retainCharacters keep`: keep only characters occurring in `keep`. -/
def retainCharacters (s keep : List Char) : List Char :=
  s.filter (fun c => keep.contains c)

/-- Model of `String::startsWithChar c`. -/
def startsWithChar (s : List Char) (c : Char) : Bool :=
  match s with
  | [] => false
  | d :: _ => d = c

/-- Model of `String::endsWithIgnoreCase suffix`: case-insensitive suffix test. -/
def endsWithIgnoreCase (s suff : List Char) : Bool :=
  (toLowerCase suff).isSuffixOf (toLowerCase s)

/-- The character set retained by `addFile` when sanitising a file name
(Main.cpp line 27). -/
def validSymbolChars : List Char := "abcdefghijklmnopqrstuvwxyz_0123456789".toList

/-- The symbol-name derivation of `addFile` (Main.cpp lines 24-27):
`file.getFileName().toLowerCase().replaceCharacter (' ', '_')
.replaceCharacter ('.', '_').retainCharacters ("abc...z_0123456789")`. -/
def symbolName (fileName : List Char) : List Char :=
  retainCharacters
    (replaceCharacter (replaceCharacter (toLowerCase fileName) ' ' '_') '.' '_')
    validSymbolChars

/-! ### Filesystem entries and the hidden-file predicate -/

/-- A filesystem entry as seen through the JUCE `File` interface: its final
path component (`getFileName`), its reported size (`getSize`) and whether it
is a directory (`isDirectory`). -/
structure EntryInfo where
  name : List Char
  size : Nat
  isDir : Bool
deriving DecidableEq

/-- Model of `isHiddenFile (f, root)` (Main.cpp lines 61-68).  The second
argument is the chain of ancestor directories of `f` strictly between `f` and
the source root, ordered from the immediate parent upward; an empty chain
means `f.getParentDirectory() == root`, so the recursive clause
`f.getParentDirectory() != root && isHiddenFile (f.getParentDirectory(), root)`
becomes a match on that chain. -/
def isHiddenFile : EntryInfo → List EntryInfo → Bool
  | f, anc =>
    endsWithIgnoreCase f.name (".scc".toList)
    || f.name == ".svn".toList
    || startsWithChar f.name '.'
    || (f.size == 0 && !f.isDir)
    || (match anc with
        | [] => false
        | parent :: rest => isHiddenFile parent rest)

/-! ### The byte-emission loop of `addFile` (Main.cpp lines 40-53) -/

/-- The body of the `while (i < mb.getSize() - 1)` loop of `addFile`, plus the
final `cppStream << (int) data[i] << ",0,0};"` statement, observed as the list
of decimal values placed on each output line.  The current byte `d` together
with the remaining bytes `rest` stand for `data[i], data[i+1], ...`; the loop
guard `i < size - 1` is exactly ``rest`` being nonempty.  `cur` is the list of
values already written on the current output line; a line break is emitted
after a value whenever `i % 40 == 39`. -/
def emitBody (cur : List Nat) (i : Nat) : Nat → List Nat → List (List Nat)
  | last, [] => [cur ++ [last, 0, 0]]
  | d, next :: rest =>
      if i % 40 == 39 then
        (cur ++ [d]) :: emitBody [] (i + 1) next rest
      else
        emitBody (cur ++ [d]) (i + 1) next rest

/-- The lines of the byte-array literal emitted by `addFile` for file contents
`data`.  For empty contents the C++ loop bound `mb.getSize() - 1` underflows
and the behaviour is undefined; the encoder is never reached with empty
contents because zero-length files are filtered out, and the model returns no
lines in that case. -/
def emitLines (data : List Nat) : List (List Nat) :=
  match data with
  | [] => []
  | d :: rest => emitBody [] 0 d rest

/-- The flat sequence of decimal values emitted into the byte-array literal,
in order, ignoring line structure. -/
def arrayValues (data : List Nat) : List Nat :=
  (emitLines data).flatten

/-- Two to the 64th: the number of values of the C++ `size_t` on the 64-bit
targets the tool builds for. -/
def size64 : Nat := 18446744073709551616

/-- Wrapping `size_t` subtraction, as used in the loop bound
`mb.getSize() - 1` of `addFile`. -/
def sizeTSub (a b : Nat) : Nat :=
  (a % size64 + (size64 - b % size64)) % size64

/-! ### Output tokens and `addFile` -/

/-- One syntactic unit written to the generated header or implementation
stream.  Only the structure the specification talks about is recorded: the
boilerplate lines, the per-file declaration pair, array literal and aliasing
definition, and the `#ifdef`/`#endif` subdirectory guards. -/
inductive Tok where
  | bannerLine : Tok
  | guardAndNamespaceOpen : List Char → Tok
  | includeLine : List Char → Tok
  | ifdefOpen : List Char → Tok
  | endifClose : Tok
  | headerDecl : List Char → Nat → Tok
  | arrayLit : Nat → List (List Nat) → Tok
  | aliasDef : List Char → List Char → Nat → Tok
  | namespaceAndGuardClose : Tok
deriving DecidableEq

/-- A console message printed by the tool. -/
inductive Msg where
  | banner : Msg
  | usage : Msg
  | sourceMissing : Msg
  | destMissing : Msg
  | creating : Msg
  | noFilesFound : Msg
  | headerOpenFail : Msg
  | cppOpenFail : Msg
  | adding : List Char → Nat → Msg
  | totalLine : Nat → Msg
deriving DecidableEq

/-- The observable effects of one `addFile` call (Main.cpp lines 16-59):
tokens appended to the header stream, tokens appended to the implementation
stream, the console message, the returned byte count `mb.getSize()`, and the
value of the `tempNum` counter after the `++tempNum` increment. -/
structure AddResult where
  headerToks : List Tok
  cppToks : List Tok
  printedMsg : Msg
  returnedSize : Nat
  nextTempNum : Nat
deriving DecidableEq

/-- Model of `addFile` (Main.cpp lines 16-59).  `fileName` is
`file.getFileName()`, `data` the loaded contents, `tempNum` the value of the
static counter before the call. -/
def addFile (fileName classname : List Char) (data : List Nat) (tempNum : Nat) : AddResult :=
  let name := symbolName fileName
  let n := tempNum + 1
  { headerToks := [Tok.headerDecl name data.length]
    cppToks := [Tok.arrayLit n (emitLines data), Tok.aliasDef classname name n]
    printedMsg := Msg.adding name data.length
    returnedSize := data.length
    nextTempNum := n }

/-! ### The main encoding loop (Main.cpp lines 164-188) -/

/-- A file returned by `findChildFiles (files, File::findFiles, true, pattern)`:
a regular file matching the wildcard pattern, together with its chain of
ancestor directories strictly between it and the source root (immediate parent
first) and its contents. -/
structure FoundFile where
  entry : EntryInfo
  ancestors : List EntryInfo
  content : List Nat
deriving DecidableEq

/-- The state threaded through the `for` loop of `main`: the running
`totalBytes`, the static `tempNum` counter, the two token streams and the
console messages printed so far. -/
structure LoopState where
  total : Nat
  tempNum : Nat
  headerToks : List Tok
  cppToks : List Tok
  msgs : List Msg
deriving DecidableEq

/-- One iteration of the `for` loop of `main` (Main.cpp lines 166-188): skip
the file when `isHiddenFile` holds; otherwise call `addFile`, wrapping its
output in `#ifdef <PARENT>` / `#endif` on both streams when the file's
immediate parent directory is not the source root (i.e. the ancestor chain is
nonempty). -/
def encodeStep (classname : List Char) (st : LoopState) (f : FoundFile) : LoopState :=
  if isHiddenFile f.entry f.ancestors then st
  else
    match f.ancestors with
    | [] =>
      let r := addFile f.entry.name classname f.content st.tempNum
      { total := st.total + r.returnedSize
        tempNum := r.nextTempNum
        headerToks := st.headerToks ++ r.headerToks
        cppToks := st.cppToks ++ r.cppToks
        msgs := st.msgs ++ [r.printedMsg] }
    | parent :: _ =>
      let r := addFile f.entry.name classname f.content st.tempNum
      { total := st.total + r.returnedSize
        tempNum := r.nextTempNum
        headerToks := st.headerToks ++ [Tok.ifdefOpen (toUpperCase parent.name)]
                        ++ r.headerToks ++ [Tok.endifClose]
        cppToks := st.cppToks ++ [Tok.ifdefOpen (toUpperCase parent.name)]
                        ++ r.cppToks ++ [Tok.endifClose]
        msgs := st.msgs ++ [r.printedMsg] }

/-- The whole `for` loop of `main`, as a fold over the collected files. -/
def encodeAll (classname : List Char) (files : List FoundFile) (st : LoopState) : LoopState :=
  files.foldl (encodeStep classname) st

/-- The files that are actually encoded: those the loop does not skip. -/
def retainedFiles (files : List FoundFile) : List FoundFile :=
  files.filter (fun f => !(isHiddenFile f.entry f.ancestors))

/-! ### `main` (Main.cpp lines 72-199) -/

/-- The abstract command-line world `main` runs in: the argument count, the
outcome of the two directory checks, the trimmed class name, the files
returned by the glob-filtered directory scan, and whether each of the two
output streams can be opened. -/
structure CmdInput where
  argc : Nat
  sourceIsDir : Bool
  destIsDir : Bool
  className : List Char
  files : List FoundFile
  headerOpenOk : Bool
  cppOpenOk : Bool

/-- The observable result of `main`: the process exit status, the console
messages in order, whether `headerFile.deleteFile()` / `cppFile.deleteFile()`
were executed, the tokens written to each destination file, and the total
printed at the end (when reached). -/
structure MainResult where
  exitCode : Nat
  messages : List Msg
  destFilesDeleted : Bool
  headerToks : List Tok
  cppToks : List Tok
  totalPrinted : Option Nat

/-- The loop state at entry to the `for` loop: `totalBytes = 0`, `tempNum =
0`, both streams already holding their opening boilerplate (Main.cpp lines
155-162), nothing printed by the loop yet. -/
def initState (className : List Char) : LoopState :=
  { total := 0
    tempNum := 0
    headerToks := [Tok.bannerLine, Tok.guardAndNamespaceOpen className]
    cppToks := [Tok.bannerLine, Tok.includeLine className]
    msgs := [] }

/-- Model of `main` (Main.cpp lines 72-199).  Every `return 0` becomes an
exit code of `0`; the destination files are deleted (line 134-135) only after
the empty-scan check (line 127) has passed. -/
def runMain (inp : CmdInput) : MainResult :=
  if inp.argc < 4 || 5 < inp.argc then
    { exitCode := 0, messages := [Msg.banner, Msg.usage], destFilesDeleted := false,
      headerToks := [], cppToks := [], totalPrinted := none }
  else if !inp.sourceIsDir then
    { exitCode := 0, messages := [Msg.banner, Msg.sourceMissing], destFilesDeleted := false,
      headerToks := [], cppToks := [], totalPrinted := none }
  else if !inp.destIsDir then
    { exitCode := 0, messages := [Msg.banner, Msg.destMissing], destFilesDeleted := false,
      headerToks := [], cppToks := [], totalPrinted := none }
  else if inp.files.length == 0 then
    { exitCode := 0, messages := [Msg.banner, Msg.creating, Msg.noFilesFound],
      destFilesDeleted := false, headerToks := [], cppToks := [], totalPrinted := none }
  else if !inp.headerOpenOk then
    { exitCode := 0, messages := [Msg.banner, Msg.creating, Msg.headerOpenFail],
      destFilesDeleted := true, headerToks := [], cppToks := [], totalPrinted := none }
  else if !inp.cppOpenOk then
    { exitCode := 0, messages := [Msg.banner, Msg.creating, Msg.cppOpenFail],
      destFilesDeleted := true, headerToks := [], cppToks := [], totalPrinted := none }
  else
    let st := encodeAll inp.className inp.files (initState inp.className)
    { exitCode := 0
      messages := [Msg.banner, Msg.creating] ++ st.msgs ++ [Msg.totalLine st.total]
      destFilesDeleted := true
      headerToks := st.headerToks ++ [Tok.namespaceAndGuardClose]
      cppToks := st.cppToks
      totalPrinted := some st.total }

/-! ### Spec-side definitions, for the refinement claims

These follow the specification's wording and are compared against the
source-derived definitions above. -/

/-- The per-entry part of the hidden-file predicate as the source states it
(Main.cpp lines 63-66): the three name conditions, plus zero reported size for
entries that are not directories. -/
def hiddenEntryClause (e : EntryInfo) : Bool :=
  endsWithIgnoreCase e.name (".scc".toList)
  || e.name == ".svn".toList
  || startsWithChar e.name '.'
  || (e.size == 0 && !e.isDir)

/-- The per-entry hidden condition exactly as the specification words it:
name ends with ".scc" case-insensitively, name is exactly ".svn", name starts
with '.', or the entry has zero length — with no directory qualification on
the zero-length condition. -/
def specHiddenClause (e : EntryInfo) : Bool :=
  endsWithIgnoreCase e.name (".scc".toList)
  || e.name == ".svn".toList
  || startsWithChar e.name '.'
  || e.size == 0

/-- The hidden-file predicate as the specification words it: the entry itself
satisfies the per-entry condition, or some ancestor directory strictly between
it and the source root satisfies the same per-entry condition. -/
def specHiddenFile (f : EntryInfo) (anc : List EntryInfo) : Bool :=
  specHiddenClause f || anc.any specHiddenClause

/-- The symbol-name derivation as the specification words it: lowercase the
name, map each space and each dot to an underscore, and delete every remaining
character that is not a lowercase letter, a digit or an underscore. -/
def specSymbolName (fileName : List Char) : List Char :=
  ((fileName.map Char.toLower).map (fun c => if c = ' ' ∨ c = '.' then '_' else c)).filter
    (fun c => c.isLower || c.isDigit || c == '_')

/-- The byte counts carried by the `Adding <name>: <N> bytes` console lines,
in print order. -/
def printedCounts (msgs : List Msg) : List Nat :=
  msgs.filterMap (fun m =>
    match m with
    | Msg.adding _ b => some b
    | _ => none)

/-! ### Concrete sample inputs used by witnesses and counterexamples -/

/-- A zero-length file directly under the source root: matched by the default
glob, then discarded by the hidden-file filter. -/
def emptyFound : FoundFile :=
  { entry := { name := "empty.bin".toList, size := 0, isDir := false }
    ancestors := []
    content := [] }

/-- A command-line world whose directory scan finds exactly one file, which
the hidden-file filter then discards. -/
def allHiddenInput : CmdInput :=
  { argc := 4, sourceIsDir := true, destIsDir := true
    className := "Resources".toList
    files := [emptyFound]
    headerOpenOk := true, cppOpenOk := true }

/-- A command-line world whose directory scan finds no files at all. -/
def emptyScanInput : CmdInput :=
  { argc := 4, sourceIsDir := true, destIsDir := true
    className := "Resources".toList
    files := []
    headerOpenOk := true, cppOpenOk := true }

/-- An ordinary three-byte file directly under the source root. -/
def plainFound : FoundFile :=
  { entry := { name := "logo.png".toList, size := 3, isDir := false }
    ancestors := []
    content := [10, 20, 30] }

/-- A command-line world with one encodable file and one filtered-out file. -/
def mixedInput : CmdInput :=
  { argc := 4, sourceIsDir := true, destIsDir := true
    className := "Resources".toList
    files := [plainFound, emptyFound]
    headerOpenOk := true, cppOpenOk := true }

/-- A subdirectory whose reported size is zero, as directory entries commonly
report on some filesystems. -/
def zeroSizeDir : EntryInfo := { name := "extra".toList, size := 0, isDir := true }

/-- A five-byte file whose own name and size pass every hidden condition. -/
def innocentEntry : EntryInfo := { name := "logo.png".toList, size := 5, isDir := false }

/-- The file `innocentEntry` sitting inside `zeroSizeDir`. -/
def innocentFound : FoundFile :=
  { entry := innocentEntry, ancestors := [zeroSizeDir], content := [1, 2, 3, 4, 5] }

/-- A dot-file, hidden by name. -/
def dotFound : FoundFile :=
  { entry := { name := ".gitignore".toList, size := 4, isDir := false }
    ancestors := []
    content := [1, 2, 3, 4] }

/-- A two-byte file inside the subdirectory `extra`. -/
def nestedFound : FoundFile :=
  { entry := { name := "icon.png".toList, size := 2, isDir := false }
    ancestors := [{ name := "extra".toList, size := 40, isDir := true }]
    content := [9, 8] }

/-- A command-line world with the wrong number of arguments. -/
def usageInput : CmdInput :=
  { argc := 2, sourceIsDir := true, destIsDir := true
    className := "Resources".toList
    files := []
    headerOpenOk := true, cppOpenOk := true }

/-! ## Helper lemmas -/

/-- Unrolling the recursive ancestor walk of `isHiddenFile`: an entry is
hidden exactly when it, or some entry in its ancestor chain, satisfies the
per-entry clause. -/
lemma isHiddenFile_eq_any (f : EntryInfo) (anc : List EntryInfo) :
    isHiddenFile f anc = (hiddenEntryClause f || anc.any hiddenEntryClause) := by
  induction anc generalizing f with
  | nil => simp [isHiddenFile, hiddenEntryClause]
  | cons p rest ih =>
    simp only [isHiddenFile, hiddenEntryClause, List.any_cons, ih p, Bool.or_assoc]

/-- Membership in the retained-character set coincides with the
lowercase-letter, digit and underscore character classes. -/
lemma mem_validSymbolChars (c : Char) :
    c ∈ validSymbolChars ↔ (c.isLower = true ∨ c.isDigit = true ∨ c = '_') := by
  constructor
  · intro h
    fin_cases h <;> decide
  · intro h
    rw [← Char.ofNat_toNat c]
    rcases h with h | h | h
    · simp only [Char.isLower, ge_iff_le, Bool.and_eq_true, decide_eq_true_eq] at h
      obtain ⟨h1, h2⟩ := h
      have h1n : 97 ≤ c.toNat := UInt32.le_toNat_of_le (by decide) h1
      have h2n : c.toNat ≤ 122 := UInt32.toNat_le_of_le (by decide) h2
      interval_cases h3 : c.toNat <;> decide
    · simp only [Char.isDigit, Bool.and_eq_true, decide_eq_true_eq] at h
      obtain ⟨h1, h2⟩ := h
      have h1n : 48 ≤ c.toNat := UInt32.le_toNat_of_le (by decide) h1
      have h2n : c.toNat ≤ 57 := UInt32.toNat_le_of_le (by decide) h2
      interval_cases h3 : c.toNat <;> decide
    · subst h; decide

/-- Boolean form of `mem_validSymbolChars`. -/
lemma contains_validSymbolChars (c : Char) :
    validSymbolChars.contains c = (c.isLower || c.isDigit || c == '_') := by
  rw [Bool.eq_iff_iff]
  rw [List.elem_iff, mem_validSymbolChars]
  simp [Bool.or_eq_true, or_assoc]

/-- The chained `String` operations of `addFile` compute exactly the
specification's symbol-name derivation. -/
lemma symbolName_eq_spec (s : List Char) : symbolName s = specSymbolName s := by
  unfold symbolName specSymbolName retainCharacters replaceCharacter toLowerCase
  rw [List.map_map, List.map_map]
  have hmap : ((fun c => if c = '.' then '_' else c) ∘ fun c => if c = ' ' then '_' else c)
      = (fun c => if c = ' ' ∨ c = '.' then '_' else c) := by
    funext d
    by_cases h1 : d = ' '
    · simp [h1]
    · by_cases h2 : d = '.' <;> simp [h1, h2]
  have hfilter : (fun c => (validSymbolChars.contains c : Bool))
      = (fun c => c.isLower || c.isDigit || c == '_') := by
    funext c; exact contains_validSymbolChars c
  rw [hmap, hfilter, List.map_map]

/-- Flattening the emitted lines recovers the whole byte sequence followed by
the two zero terminators, whatever the current line and index are. -/
lemma emitBody_flatten (rest : List Nat) : ∀ (cur : List Nat) (i d : Nat),
    (emitBody cur i d rest).flatten = cur ++ d :: rest ++ [0, 0] := by
  induction rest with
  | nil => intro cur i d; simp [emitBody]
  | cons next rest ih =>
    intro cur i d
    simp only [emitBody]
    split
    · simp [List.flatten_cons, ih]
    · simp [ih]

/-- The emission loop always produces at least one line. -/
lemma emitBody_ne_nil (rest : List Nat) : ∀ (cur : List Nat) (i d : Nat),
    emitBody cur i d rest ≠ [] := by
  induction rest with
  | nil => intro cur i d; simp [emitBody]
  | cons a b ih =>
    intro cur i d
    simp only [emitBody]
    split
    · simp
    · exact ih (cur ++ [d]) (i + 1) a

/-- Line-length invariant of the emission loop: if the current line already
holds `i % 40` values, every produced line holds at most 42 values and every
line except the last holds exactly 40. -/
lemma emitBody_lines (rest : List Nat) : ∀ (cur : List Nat) (i d : Nat),
    cur.length = i % 40 →
    (∀ l ∈ emitBody cur i d rest, l.length ≤ 42)
    ∧ (∀ l ∈ (emitBody cur i d rest).dropLast, l.length = 40) := by
  induction rest with
  | nil =>
    intro cur i d hc
    refine ⟨?_, ?_⟩
    · intro l hl
      simp only [emitBody, List.mem_singleton] at hl
      subst hl
      have : i % 40 < 40 := Nat.mod_lt i (by norm_num)
      simp [hc]
      omega
    · intro l hl
      simp [emitBody] at hl
  | cons next rest ih =>
    intro cur i d hc
    simp only [emitBody]
    split
    · next h =>
      have h39 : i % 40 = 39 := by simpa using h
      have hnext : ([] : List Nat).length = (i + 1) % 40 := by
        simp; omega
      obtain ⟨ih1, ih2⟩ := ih [] (i + 1) next hnext
      refine ⟨?_, ?_⟩
      · intro l hl
        rcases List.mem_cons.mp hl with hl | hl
        · subst hl; simp [hc, h39]
        · exact ih1 l hl
      · intro l hl
        rw [List.dropLast_cons_of_ne_nil (emitBody_ne_nil rest [] (i + 1) next)] at hl
        rcases List.mem_cons.mp hl with hl | hl
        · subst hl; simp [hc, h39]
        · exact ih2 l hl
    · next h =>
      have h39 : i % 40 ≠ 39 := by simpa using h
      have hc2 : (cur ++ [d]).length = (i + 1) % 40 := by
        have : i % 40 < 40 := Nat.mod_lt i (by norm_num)
        simp [hc]
        omega
      exact ih (cur ++ [d]) (i + 1) next hc2

/-- Reading a list back through `getD` at the indices `0, ..., length - 1`
reproduces the list. -/
lemma map_getD_range (l : List Nat) :
    (List.range l.length).map (fun i => l.getD i 0) = l := by
  apply List.ext_getElem
  · simp
  · intro n h1 h2
    simp only [List.getElem_map, List.getElem_range]
    rw [List.getD_eq_getElem l 0 h2]

/-- Splitting off the final element of a `getD` reading of a nonempty list. -/
lemma getD_range_split (l : List Nat) (hl : l ≠ []) :
    l = (List.range (l.length - 1)).map (fun i => l.getD i 0)
          ++ [l.getD (l.length - 1) 0] := by
  conv_lhs => rw [← map_getD_range l]
  obtain ⟨m, hm⟩ : ∃ m, l.length = m + 1 := by
    cases l with
    | nil => simp at hl
    | cons a t => exact ⟨t.length, by simp⟩
  rw [hm]
  simp [List.range_succ]

/-- The running total after the whole loop: the initial total plus the sizes
of the retained files. -/
lemma encodeAll_total (classname : List Char) (files : List FoundFile) :
    ∀ st : LoopState,
      (encodeAll classname files st).total
        = st.total + ((retainedFiles files).map (fun f => f.content.length)).sum := by
  induction files with
  | nil => intro st; simp [encodeAll, retainedFiles]
  | cons f fs ih =>
    intro st
    rw [show encodeAll classname (f :: fs) st
        = encodeAll classname fs (encodeStep classname st f) from rfl, ih]
    by_cases h : isHiddenFile f.entry f.ancestors
    · simp [encodeStep, h, retainedFiles]
    · have hb : isHiddenFile f.entry f.ancestors = false := by simpa using h
      cases ha : f.ancestors with
      | nil =>
        rw [ha] at hb
        simp [encodeStep, hb, ha, addFile, retainedFiles, Nat.add_assoc]
      | cons p rest =>
        rw [ha] at hb
        simp [encodeStep, hb, ha, addFile, retainedFiles, Nat.add_assoc]

/-- The `Adding` byte counts printed by the whole loop: whatever was printed
before, then the sizes of the retained files in order. -/
lemma encodeAll_printed (classname : List Char) (files : List FoundFile) :
    ∀ st : LoopState,
      printedCounts (encodeAll classname files st).msgs
        = printedCounts st.msgs ++ (retainedFiles files).map (fun f => f.content.length) := by
  induction files with
  | nil => intro st; simp [encodeAll, retainedFiles]
  | cons f fs ih =>
    intro st
    rw [show encodeAll classname (f :: fs) st
        = encodeAll classname fs (encodeStep classname st f) from rfl, ih]
    by_cases h : isHiddenFile f.entry f.ancestors
    · simp [encodeStep, h, retainedFiles]
    · have hb : isHiddenFile f.entry f.ancestors = false := by simpa using h
      cases ha : f.ancestors with
      | nil =>
        rw [ha] at hb
        simp [encodeStep, hb, ha, addFile, retainedFiles, printedCounts, List.filterMap_append]
      | cons p rest =>
        rw [ha] at hb
        simp [encodeStep, hb, ha, addFile, retainedFiles, printedCounts, List.filterMap_append]

/-- Splitting `printedCounts` over message concatenation. -/
lemma printedCounts_append (a b : List Msg) :
    printedCounts (a ++ b) = printedCounts a ++ printedCounts b := by
  simp [printedCounts, List.filterMap_append]

/-- The shape of the result of `main` on a run that completes normally. -/
lemma runMain_normal (inp : CmdInput)
    (hargc : (inp.argc < 4 || 5 < inp.argc) = false)
    (h3 : inp.sourceIsDir = true) (h4 : inp.destIsDir = true)
    (hlen : (inp.files.length == 0) = false)
    (h6 : inp.headerOpenOk = true) (h7 : inp.cppOpenOk = true) :
    runMain inp =
      { exitCode := 0
        messages := [Msg.banner, Msg.creating]
            ++ (encodeAll inp.className inp.files (initState inp.className)).msgs
            ++ [Msg.totalLine (encodeAll inp.className inp.files (initState inp.className)).total]
        destFilesDeleted := true
        headerToks := (encodeAll inp.className inp.files (initState inp.className)).headerToks
            ++ [Tok.namespaceAndGuardClose]
        cppToks := (encodeAll inp.className inp.files (initState inp.className)).cppToks
        totalPrinted := some (encodeAll inp.className inp.files (initState inp.className)).total } := by
  simp [runMain, hargc, h3, h4, hlen, h6, h7]

/-! ## Claim theorems -/

/-- Claim C1, counterexample: the emptiness check of `main` looks at the
glob-filtered scan result before the hidden-file filter runs, so a scan that
finds only hidden files (here a single zero-length file) leaves zero files to
encode, yet the tool still deletes the destination files, writes boilerplate
into both, and never reports that no source files were found. -/
theorem allHidden_still_deletes_dest :
    retainedFiles allHiddenInput.files = []
    ∧ (runMain allHiddenInput).destFilesDeleted = true
    ∧ (runMain allHiddenInput).headerToks ≠ []
    ∧ (runMain allHiddenInput).cppToks ≠ []
    ∧ Msg.noFilesFound ∉ (runMain allHiddenInput).messages := by decide

/-- Claim C1, amended: if the glob-filtered directory scan itself returns zero
files — before the hidden-file filter is applied — the tool reports that no
source files were found and exits without deleting or writing either
destination file. -/
theorem empty_scan_leaves_dest_untouched (inp : CmdInput)
    (h1 : 4 ≤ inp.argc) (h2 : inp.argc ≤ 5) (h3 : inp.sourceIsDir = true)
    (h4 : inp.destIsDir = true) (h5 : inp.files = []) :
    Msg.noFilesFound ∈ (runMain inp).messages
    ∧ (runMain inp).destFilesDeleted = false
    ∧ (runMain inp).headerToks = []
    ∧ (runMain inp).cppToks = []
    ∧ (runMain inp).totalPrinted = none := by
  have hargc : (inp.argc < 4 || 5 < inp.argc) = false := by
    simp only [Bool.or_eq_false_iff, decide_eq_false_iff_not, not_lt]
    omega
  simp [runMain, hargc, h3, h4, h5]

/-- Witness for the amended claim C1, at a world whose scan finds nothing. -/
theorem empty_scan_leaves_dest_untouched_witness :
    4 ≤ emptyScanInput.argc ∧ emptyScanInput.argc ≤ 5
    ∧ emptyScanInput.sourceIsDir = true ∧ emptyScanInput.destIsDir = true
    ∧ emptyScanInput.files = []
    ∧ (Msg.noFilesFound ∈ (runMain emptyScanInput).messages
        ∧ (runMain emptyScanInput).destFilesDeleted = false
        ∧ (runMain emptyScanInput).headerToks = []
        ∧ (runMain emptyScanInput).cppToks = []
        ∧ (runMain emptyScanInput).totalPrinted = none) :=
  ⟨by decide, by decide, by decide, by decide, by decide,
    empty_scan_leaves_dest_untouched emptyScanInput
      (by decide) (by decide) (by decide) (by decide) (by decide)⟩

/-- Claim C2: on a run that completes normally, the final printed total equals
the sum of the byte sizes of exactly the files retained by the filters; the
`Adding` lines print exactly those sizes in order; and after any prefix of the
loop the running total equals the sum of the byte counts printed so far. -/
theorem total_eq_sum_of_encoded_sizes (inp : CmdInput)
    (h1 : 4 ≤ inp.argc) (h2 : inp.argc ≤ 5) (h3 : inp.sourceIsDir = true)
    (h4 : inp.destIsDir = true) (h5 : inp.files ≠ []) (h6 : inp.headerOpenOk = true)
    (h7 : inp.cppOpenOk = true) :
    (runMain inp).totalPrinted
        = some (((retainedFiles inp.files).map (fun f => f.content.length)).sum)
    ∧ printedCounts (runMain inp).messages
        = (retainedFiles inp.files).map (fun f => f.content.length)
    ∧ (∀ fs : List FoundFile,
        (encodeAll inp.className fs (initState inp.className)).total
          = (printedCounts (encodeAll inp.className fs (initState inp.className)).msgs).sum) := by
  have hargc : (inp.argc < 4 || 5 < inp.argc) = false := by
    simp only [Bool.or_eq_false_iff, decide_eq_false_iff_not, not_lt]
    omega
  have hlen : (inp.files.length == 0) = false := by
    simp only [beq_eq_false_iff_ne, ne_eq, List.length_eq_zero]
    exact h5
  rw [runMain_normal inp hargc h3 h4 hlen h6 h7]
  refine ⟨?_, ?_, ?_⟩
  · simp [encodeAll_total, initState]
  · dsimp only
    rw [printedCounts_append, printedCounts_append, encodeAll_printed]
    simp [initState, printedCounts]
  · intro fs
    rw [encodeAll_total, encodeAll_printed]
    simp [initState, printedCounts]

/-- Witness for claim C2, on a world with one encodable and one filtered file. -/
theorem total_eq_sum_of_encoded_sizes_witness :
    4 ≤ mixedInput.argc ∧ mixedInput.argc ≤ 5
    ∧ mixedInput.sourceIsDir = true ∧ mixedInput.destIsDir = true
    ∧ mixedInput.files ≠ [] ∧ mixedInput.headerOpenOk = true ∧ mixedInput.cppOpenOk = true
    ∧ (runMain mixedInput).totalPrinted
        = some (((retainedFiles mixedInput.files).map (fun f => f.content.length)).sum)
    ∧ printedCounts (runMain mixedInput).messages
        = (retainedFiles mixedInput.files).map (fun f => f.content.length) :=
  ⟨by decide, by decide, by decide, by decide, by decide, by decide, by decide,
    (total_eq_sum_of_encoded_sizes mixedInput (by decide) (by decide) (by decide)
      (by decide) (by decide) (by decide) (by decide)).1,
    (total_eq_sum_of_encoded_sizes mixedInput (by decide) (by decide) (by decide)
      (by decide) (by decide) (by decide) (by decide)).2.1⟩

/-- Claim C3: for nonempty file contents, the sequence of values emitted into
the byte-array literal is exactly the file's bytes in order followed by
exactly two zero terminators, so dropping the final two values reproduces the
original contents byte-for-byte. -/
theorem emitted_values_roundtrip (data : List Nat) (h : data ≠ []) :
    arrayValues data = data ++ [0, 0]
    ∧ (arrayValues data).dropLast.dropLast = data := by
  obtain ⟨d, rest, rfl⟩ := List.exists_cons_of_ne_nil h
  have hflat : arrayValues (d :: rest) = d :: rest ++ [0, 0] := by
    simp [arrayValues, emitLines, emitBody_flatten]
  refine ⟨hflat, ?_⟩
  rw [hflat]
  have : d :: rest ++ [0, 0] = ((d :: rest) ++ [0]) ++ [0] := by simp
  rw [this, List.dropLast_concat, List.dropLast_concat]

/-- Witness for claim C3, on a three-byte file. -/
theorem emitted_values_roundtrip_witness :
    ([7, 0, 255] : List Nat) ≠ []
    ∧ arrayValues [7, 0, 255] = [7, 0, 255] ++ [0, 0] :=
  ⟨by decide, (emitted_values_roundtrip [7, 0, 255] (by decide)).1⟩

/-- Claim C4, counterexample: the specification's hidden predicate applies its
zero-length condition to ancestor directories unguarded, so it marks a file
inside a zero-size-reporting subdirectory as excluded, while the code's
`isHiddenFile` — whose zero-length clause requires `! isDirectory()` — keeps
it, and the main loop encodes it. -/
theorem spec_hidden_predicate_mismatch :
    specHiddenFile innocentEntry [zeroSizeDir] = true
    ∧ isHiddenFile innocentEntry [zeroSizeDir] = false
    ∧ retainedFiles [innocentFound] = [innocentFound] := by decide

/-- Claim C4, amended: a discovered file is excluded from encoding if and only
if it, or some ancestor directory strictly between it and the source root,
satisfies the per-entry hidden clause — name ends in ".scc" case-insensitively,
name is exactly ".svn", name starts with '.', or zero reported size for a
non-directory entry. -/
theorem hidden_filter_characterisation (files : List FoundFile) (f : FoundFile)
    (hmem : f ∈ files) :
    f ∉ retainedFiles files ↔
      (hiddenEntryClause f.entry = true ∨ ∃ p ∈ f.ancestors, hiddenEntryClause p = true) := by
  rw [retainedFiles, List.mem_filter]
  simp only [hmem, isHiddenFile_eq_any, true_and, Bool.not_eq_true, Bool.or_eq_false_iff,
    Bool.or_eq_true, List.any_eq_true, not_and]
  cases hA : hiddenEntryClause f.entry <;> simp [hA]

/-- Witness for the amended claim C4, on a dot-file. -/
theorem hidden_filter_characterisation_witness :
    dotFound ∈ [dotFound]
    ∧ (dotFound ∉ retainedFiles [dotFound] ↔
        (hiddenEntryClause dotFound.entry = true
          ∨ ∃ p ∈ dotFound.ancestors, hiddenEntryClause p = true)) :=
  ⟨by decide, hidden_filter_characterisation [dotFound] dotFound (by decide)⟩

/-- Claim C5: the emitted public symbol name is the file name lowercased, with
spaces and dots mapped to underscores and every remaining character outside
the lowercase-letter, digit and underscore classes deleted; the same name
appears in the header declaration and in the implementation aliasing
definition. -/
theorem symbolName_matches_spec (fileName classname : List Char) (data : List Nat)
    (tempNum : Nat) :
    symbolName fileName = specSymbolName fileName
    ∧ (addFile fileName classname data tempNum).headerToks
        = [Tok.headerDecl (specSymbolName fileName) data.length]
    ∧ (addFile fileName classname data tempNum).cppToks
        = [Tok.arrayLit (tempNum + 1) (emitLines data),
           Tok.aliasDef classname (specSymbolName fileName) (tempNum + 1)] := by
  refine ⟨symbolName_eq_spec fileName, ?_, ?_⟩ <;> simp [addFile, symbolName_eq_spec]

/-- Claim C6: the per-file emission of the main loop is wrapped, on both
streams, in an `#ifdef` guard named after the uppercased immediate parent
directory exactly when that parent is not the source root (nonempty ancestor
chain); a file directly in the source root is emitted unguarded, and deeper
ancestors contribute nothing to the guard. -/
theorem subdirectory_guard_iff_parent_not_sourceRoot (classname : List Char) (st : LoopState)
    (f : FoundFile) (h : isHiddenFile f.entry f.ancestors = false) :
    (f.ancestors = [] →
        (encodeStep classname st f).headerToks
          = st.headerToks
              ++ (addFile f.entry.name classname f.content st.tempNum).headerToks
        ∧ (encodeStep classname st f).cppToks
          = st.cppToks
              ++ (addFile f.entry.name classname f.content st.tempNum).cppToks)
    ∧ (∀ (parent : EntryInfo) (rest : List EntryInfo), f.ancestors = parent :: rest →
        (encodeStep classname st f).headerToks
          = st.headerToks ++ [Tok.ifdefOpen (toUpperCase parent.name)]
              ++ (addFile f.entry.name classname f.content st.tempNum).headerToks
              ++ [Tok.endifClose]
        ∧ (encodeStep classname st f).cppToks
          = st.cppToks ++ [Tok.ifdefOpen (toUpperCase parent.name)]
              ++ (addFile f.entry.name classname f.content st.tempNum).cppToks
              ++ [Tok.endifClose]) := by
  constructor
  · intro ha
    rw [ha] at h
    constructor <;> simp [encodeStep, h, ha]
  · intro parent rest ha
    rw [ha] at h
    constructor <;> simp [encodeStep, h, ha]

/-- Witness for claim C6, on a file one level below the source root. -/
theorem subdirectory_guard_iff_parent_not_sourceRoot_witness :
    isHiddenFile nestedFound.entry nestedFound.ancestors = false
    ∧ ((nestedFound.ancestors = [] →
          (encodeStep "Resources".toList (initState "Resources".toList) nestedFound).headerToks
            = (initState "Resources".toList).headerToks
                ++ (addFile nestedFound.entry.name "Resources".toList nestedFound.content
                      (initState "Resources".toList).tempNum).headerToks
          ∧ (encodeStep "Resources".toList (initState "Resources".toList) nestedFound).cppToks
            = (initState "Resources".toList).cppToks
                ++ (addFile nestedFound.entry.name "Resources".toList nestedFound.content
                      (initState "Resources".toList).tempNum).cppToks)
        ∧ (∀ (parent : EntryInfo) (rest : List EntryInfo),
            nestedFound.ancestors = parent :: rest →
            (encodeStep "Resources".toList (initState "Resources".toList) nestedFound).headerToks
              = (initState "Resources".toList).headerToks
                  ++ [Tok.ifdefOpen (toUpperCase parent.name)]
                  ++ (addFile nestedFound.entry.name "Resources".toList nestedFound.content
                        (initState "Resources".toList).tempNum).headerToks
                  ++ [Tok.endifClose]
            ∧ (encodeStep "Resources".toList (initState "Resources".toList) nestedFound).cppToks
              = (initState "Resources".toList).cppToks
                  ++ [Tok.ifdefOpen (toUpperCase parent.name)]
                  ++ (addFile nestedFound.entry.name "Resources".toList nestedFound.content
                        (initState "Resources".toList).tempNum).cppToks
                  ++ [Tok.endifClose])) :=
  ⟨by decide,
    subdirectory_guard_iff_parent_not_sourceRoot "Resources".toList
      (initState "Resources".toList) nestedFound (by decide)⟩

/-- Claim C7, counterexample: a 40-byte file makes the loop finish without
ever reaching the line-break test at `i % 40 == 39`, so the single output line
receives all 40 data values plus the two zero terminators — 42 values on one
line, refuting the claim that no line of an array literal carries more than 40
values. -/
theorem forty_byte_file_line_overflow :
    ∃ l ∈ emitLines (List.replicate 40 1), 40 < l.length := by decide

/-- Claim C7, amended: array-literal lines are wrapped after every 40th data
value, so every line except the last carries exactly 40 values; the last line
carries the remaining data values plus the two zero terminators, hence at most
42 values; and when the file's bytes are in 0-255 every emitted value is in
0-255. -/
theorem line_wrap_bounds (data : List Nat) (h : data ≠ []) :
    (∀ l ∈ emitLines data, l.length ≤ 42)
    ∧ (∀ l ∈ (emitLines data).dropLast, l.length = 40)
    ∧ ((∀ b ∈ data, b < 256) → ∀ l ∈ emitLines data, ∀ v ∈ l, v < 256) := by
  obtain ⟨d, rest, rfl⟩ := List.exists_cons_of_ne_nil h
  obtain ⟨h1, h2⟩ := emitBody_lines rest [] 0 d (by simp)
  refine ⟨h1, h2, ?_⟩
  intro hb l hl v hv
  have hvmem : v ∈ (emitBody [] 0 d rest).flatten := List.mem_flatten.mpr ⟨l, hl, hv⟩
  rw [emitBody_flatten rest [] 0 d] at hvmem
  simp only [List.nil_append, List.cons_append, List.mem_cons, List.mem_append] at hvmem
  rcases hvmem with rfl | hvmem
  · exact hb v (by simp)
  · rcases hvmem with hvmem | hvmem
    · exact hb v (by simp [hvmem])
    · simp only [List.mem_cons, List.mem_singleton, List.not_mem_nil, or_false] at hvmem
      rcases hvmem with rfl | rfl <;> norm_num

/-- Witness for the amended claim C7, on a one-byte file. -/
theorem line_wrap_bounds_witness :
    ([5] : List Nat) ≠ [] ∧ ∀ l ∈ emitLines [5], l.length ≤ 42 :=
  ⟨by decide, (line_wrap_bounds [5] (by decide)).1⟩

/-- Claim C8: the exit status is 0 on every path of `main`, and each failure
path — usage error, missing source or destination directory, empty scan, and
either output-file open failure — prints its diagnostic message, while normal
completion prints the final total. -/
theorem exit_status_zero_with_diagnostics (inp : CmdInput) :
    (runMain inp).exitCode = 0
    ∧ ((inp.argc < 4 ∨ 5 < inp.argc) → Msg.usage ∈ (runMain inp).messages)
    ∧ (4 ≤ inp.argc → inp.argc ≤ 5 → inp.sourceIsDir = false →
        Msg.sourceMissing ∈ (runMain inp).messages)
    ∧ (4 ≤ inp.argc → inp.argc ≤ 5 → inp.sourceIsDir = true → inp.destIsDir = false →
        Msg.destMissing ∈ (runMain inp).messages)
    ∧ (4 ≤ inp.argc → inp.argc ≤ 5 → inp.sourceIsDir = true → inp.destIsDir = true →
        inp.files = [] → Msg.noFilesFound ∈ (runMain inp).messages)
    ∧ (4 ≤ inp.argc → inp.argc ≤ 5 → inp.sourceIsDir = true → inp.destIsDir = true →
        inp.files ≠ [] → inp.headerOpenOk = false →
        Msg.headerOpenFail ∈ (runMain inp).messages)
    ∧ (4 ≤ inp.argc → inp.argc ≤ 5 → inp.sourceIsDir = true → inp.destIsDir = true →
        inp.files ≠ [] → inp.headerOpenOk = true → inp.cppOpenOk = false →
        Msg.cppOpenFail ∈ (runMain inp).messages)
    ∧ (4 ≤ inp.argc → inp.argc ≤ 5 → inp.sourceIsDir = true → inp.destIsDir = true →
        inp.files ≠ [] → inp.headerOpenOk = true → inp.cppOpenOk = true →
        ∃ n, (runMain inp).totalPrinted = some n
          ∧ Msg.totalLine n ∈ (runMain inp).messages) := by
  refine ⟨?_, ?_, ?_, ?_, ?_, ?_, ?_, ?_⟩
  · rw [runMain]
    split
    · rfl
    · split
      · rfl
      · split
        · rfl
        · split
          · rfl
          · split
            · rfl
            · split <;> rfl
  · intro h
    have hargc : (inp.argc < 4 || 5 < inp.argc) = true := by
      rcases h with h | h <;> simp [h]
    simp [runMain, hargc]
  · intro h1 h2 h3
    have hargc : (inp.argc < 4 || 5 < inp.argc) = false := by
      simp only [Bool.or_eq_false_iff, decide_eq_false_iff_not, not_lt]
      omega
    simp [runMain, hargc, h3]
  · intro h1 h2 h3 h4
    have hargc : (inp.argc < 4 || 5 < inp.argc) = false := by
      simp only [Bool.or_eq_false_iff, decide_eq_false_iff_not, not_lt]
      omega
    simp [runMain, hargc, h3, h4]
  · intro h1 h2 h3 h4 h5
    have hargc : (inp.argc < 4 || 5 < inp.argc) = false := by
      simp only [Bool.or_eq_false_iff, decide_eq_false_iff_not, not_lt]
      omega
    simp [runMain, hargc, h3, h4, h5]
  · intro h1 h2 h3 h4 h5 h6
    have hargc : (inp.argc < 4 || 5 < inp.argc) = false := by
      simp only [Bool.or_eq_false_iff, decide_eq_false_iff_not, not_lt]
      omega
    have hlen : (inp.files.length == 0) = false := by
      simp only [beq_eq_false_iff_ne, ne_eq, List.length_eq_zero]
      exact h5
    simp [runMain, hargc, h3, h4, hlen, h6]
  · intro h1 h2 h3 h4 h5 h6 h7
    have hargc : (inp.argc < 4 || 5 < inp.argc) = false := by
      simp only [Bool.or_eq_false_iff, decide_eq_false_iff_not, not_lt]
      omega
    have hlen : (inp.files.length == 0) = false := by
      simp only [beq_eq_false_iff_ne, ne_eq, List.length_eq_zero]
      exact h5
    simp [runMain, hargc, h3, h4, hlen, h6, h7]
  · intro h1 h2 h3 h4 h5 h6 h7
    have hargc : (inp.argc < 4 || 5 < inp.argc) = false := by
      simp only [Bool.or_eq_false_iff, decide_eq_false_iff_not, not_lt]
      omega
    have hlen : (inp.files.length == 0) = false := by
      simp only [beq_eq_false_iff_ne, ne_eq, List.length_eq_zero]
      exact h5
    rw [runMain_normal inp hargc h3 h4 hlen h6 h7]
    exact ⟨(encodeAll inp.className inp.files (initState inp.className)).total,
      rfl, by simp⟩

/-- Witness for claim C8, on a usage-error world. -/
theorem exit_status_zero_with_diagnostics_witness :
    (runMain usageInput).exitCode = 0
    ∧ (usageInput.argc < 4 ∨ 5 < usageInput.argc)
    ∧ Msg.usage ∈ (runMain usageInput).messages :=
  ⟨(exit_status_zero_with_diagnostics usageInput).1, by decide,
    (exit_status_zero_with_diagnostics usageInput).2.1 (by decide)⟩

/-- Claim C9: a file that reaches the encoder is a non-directory that passed
the hidden filter, so its size is at least 1; the unsigned loop bound
`size - 1` therefore does not wrap; the loop visits exactly the indices
`0 .. size - 2` and the final access at `size - 1` is within bounds; emission
is total and touches every byte exactly once, in order. -/
theorem emission_loop_welldefined (f : FoundFile)
    (hdir : f.entry.isDir = false)
    (hh : isHiddenFile f.entry f.ancestors = false)
    (hlen : f.content.length = f.entry.size)
    (hlt : f.entry.size < size64) :
    1 ≤ f.entry.size
    ∧ sizeTSub f.content.length 1 = f.content.length - 1
    ∧ f.content.length - 1 < f.content.length
    ∧ arrayValues f.content =
        ((List.range (f.content.length - 1)).map (fun i => f.content.getD i 0))
          ++ [f.content.getD (f.content.length - 1) 0] ++ [0, 0] := by
  have hbase : hiddenEntryClause f.entry = false := by
    rw [isHiddenFile_eq_any] at hh
    simp only [Bool.or_eq_false_iff] at hh
    exact hh.1
  have hsz : f.entry.size ≠ 0 := by
    simp only [hiddenEntryClause, hdir, Bool.not_false, Bool.and_true,
      Bool.or_eq_false_iff, beq_eq_false_iff_ne, ne_eq] at hbase
    exact hbase.2
  have hone : 1 ≤ f.entry.size := by omega
  have hlen1 : 1 ≤ f.content.length := by omega
  have hne : f.content ≠ [] := by
    cases hcc : f.content with
    | nil => rw [hcc] at hlen1; simp at hlen1
    | cons a t => simp
  refine ⟨hone, ?_, by omega, ?_⟩
  · have hlt2 : f.content.length < 18446744073709551616 := by
      have h2 := hlt
      unfold size64 at h2
      omega
    simp only [sizeTSub, size64]
    omega
  · have hflat : arrayValues f.content = f.content ++ [0, 0] := by
      obtain ⟨d, rest, hdr⟩ := List.exists_cons_of_ne_nil hne
      rw [hdr]
      simp [arrayValues, emitLines, emitBody_flatten]
    rw [hflat]
    conv_lhs => rw [getD_range_split f.content hne]

/-- Witness for claim C9, on a three-byte file in the source root. -/
theorem emission_loop_welldefined_witness :
    plainFound.entry.isDir = false
    ∧ isHiddenFile plainFound.entry plainFound.ancestors = false
    ∧ plainFound.content.length = plainFound.entry.size
    ∧ plainFound.entry.size < size64
    ∧ (1 ≤ plainFound.entry.size
        ∧ sizeTSub plainFound.content.length 1 = plainFound.content.length - 1
        ∧ plainFound.content.length - 1 < plainFound.content.length
        ∧ arrayValues plainFound.content =
            ((List.range (plainFound.content.length - 1)).map
                (fun i => plainFound.content.getD i 0))
              ++ [plainFound.content.getD (plainFound.content.length - 1) 0] ++ [0, 0]) :=
  ⟨by decide, by decide, by decide, by decide,
    emission_loop_welldefined plainFound (by decide) (by decide) (by decide) (by decide)⟩

/-- Claim C10: for a directory, the zero-length clause of `isHiddenFile` never
fires — a directory is hidden only through the name conditions or through a
hidden ancestor of its own, so an ancestor directory reporting size zero does
not by itself exclude the files below it. -/
theorem directory_zero_size_not_hidden (e : EntryInfo) (anc : List EntryInfo)
    (hdir : e.isDir = true) :
    isHiddenFile e anc =
      (endsWithIgnoreCase e.name (".scc".toList)
        || e.name == ".svn".toList
        || startsWithChar e.name '.'
        || anc.any hiddenEntryClause) := by
  rw [isHiddenFile_eq_any]
  simp [hiddenEntryClause, hdir, Bool.or_assoc]

/-- Witness for claim C10, on a zero-size directory in the source root. -/
theorem directory_zero_size_not_hidden_witness :
    zeroSizeDir.isDir = true
    ∧ isHiddenFile zeroSizeDir [] =
        (endsWithIgnoreCase zeroSizeDir.name (".scc".toList)
          || zeroSizeDir.name == ".svn".toList
          || startsWithChar zeroSizeDir.name '.'
          || List.any [] hiddenEntryClause) :=
  ⟨by decide, directory_zero_size_not_hidden zeroSizeDir [] (by decide)⟩

end BinaryBuilder
